import Mathlib

/-!
Verification development for the sf-processor policy engine and log tailer.

Shallow embedding of:
* the predicate algebra (`Criterion`, from core/policyengine/engine, criterion source),
* the policy interpreter (`Process`, `EvalFilters`, from
  core/policyengine/engine/interpreter.go),
* the field mapper (`FieldMapper.Map`, `MapInt`, `MapStr`, from the falco
  fieldmapper source),
* the operations vocabulary (`Eq`, `In`, `eval`, from
  core/policyengine/engine/falco/operations.go),
* the policy compiler's severity parsing (`getPriority`),
* the log-stream decoder (`decodeAndSend`, from
  driver/log/tailer/logstream/decode.go) and the file-stream event loop.

Go `error` values are modelled as `Option String` (`none` = nil error).
Go `int64`/`int32` are modelled as `Int`; overflow does not occur in any of
the operations embedded here except integer parsing, where the range check
of `strconv.ParseInt` is modelled explicitly.
-/

namespace SfProc

/-! ### Predicate algebra (engine criterion source, part_002) -/

/-- `Predicate` defines the type of a functional predicate
(`func(R) (bool, error)`). -/
def Predicate (R : Type) : Type := R → Bool × Option String

/-- `Criterion` defines an interface for functional predicate operations. -/
structure Criterion (R : Type) where
  Pred : Predicate R

/-- `Eval` evaluates a functional predicate. -/
def Criterion.Eval {R : Type} (c : Criterion R) (r : R) : Bool × Option String :=
  c.Pred r

/-- `And` computes the conjunction of two functional predicates.  Embedded
exactly as written in the source: both evaluations are of the receiver `c`
(the argument `cr` is never evaluated), and the code proceeds to the
conjunction only when `err != nil`. -/
def Criterion.And {R : Type} (c _cr : Criterion R) : Criterion R :=
  Criterion.mk (fun r =>
    match c.Eval r with
    | (b1, some _e1) =>
      match c.Eval r with
      | (b2, some _e2) => (b1 && b2, some _e2)
      | (_, none) => (false, none)
    | (_, none) => (false, none))

/-- `Or` computes the disjunction of two functional predicates (same
structure as `And` in the source, with `||`). -/
def Criterion.Or {R : Type} (c _cr : Criterion R) : Criterion R :=
  Criterion.mk (fun r =>
    match c.Eval r with
    | (b1, some _e1) =>
      match c.Eval r with
      | (b2, some _e2) => (b1 || b2, some _e2)
      | (_, none) => (false, none)
    | (_, none) => (false, none))

/-- `Not` computes the negation of the function predicate.  Embedded as
written: the negation `!res` is returned only when `err != nil`; on an
error-free evaluation the result is `(false, nil)`. -/
def Criterion.Not {R : Type} (c : Criterion R) : Criterion R :=
  Criterion.mk (fun r =>
    match c.Eval r with
    | (res, some e) => (!res, some e)
    | (_, none) => (false, none))

/-! ### Rules, filters, priorities (engine types source, part_001) -/

/-- Priority denotes the type for rule priority (enum `Low, Medium, High`). -/
inductive Priority : Type
  | low
  | medium
  | high
deriving DecidableEq, Repr

/-- String returns the string representation of a priority instance. -/
def Priority.toStr : Priority → String
  | .low => "low"
  | .medium => "medium"
  | .high => "high"

/-- Rule type.  The interpreter consumes the compiled condition through its
boolean evaluation (`rule.condition.Eval(*r)` used in boolean position), so
the condition is embedded as a boolean predicate. -/
structure Rule (R : Type) where
  Name : String
  Desc : String
  condition : R → Bool
  Actions : List String
  Tags : List String
  Priority : Priority
  Prefilter : List String
  Enabled : Bool

/-- Filter type (drop rule). -/
structure Filter (R : Type) where
  Name : String
  condition : R → Bool
  Enabled : Bool

/-! ### Policy interpreter (core/policyengine/engine/interpreter.go) -/

/-- Modelled from the spec: the interpreter's two execution modes
(`alert`, `enrich`); the `Mode` type itself is declared outside src/. -/
inductive Mode : Type
  | alert
  | enrich
deriving DecidableEq, Repr

/-- PolicyInterpreter defines a rules engine for SysFlow data streams
(the fields consumed by `Process`/`EvalFilters`). -/
structure PolicyInterpreter (R : Type) where
  mode : Mode
  rules : List (Rule R)
  filters : List (Filter R)

/-- EvalFilters executes compiled policy filters against record r. -/
def PolicyInterpreter.EvalFilters {R : Type} (pi : PolicyInterpreter R) (r : R) : Bool :=
  pi.filters.any (fun f => f.Enabled && f.condition r)

/-- Process executes all compiled policies against record r.  Returns `none`
(nil) when a filter matches or, outside enrich mode, when no rule matches.
The loop over the rules only updates the local `match` flag; the context
mutations (`SetAlert`, `AddRule`) are commented out in the source. -/
def PolicyInterpreter.Process {R : Type} (pi : PolicyInterpreter R) (r : R) : Option R :=
  if pi.EvalFilters r then none
  else
    let matchInit : Bool := pi.mode = Mode.enrich
    let matched : Bool := pi.rules.foldl
      (fun m rule => if rule.Enabled && rule.condition r then true else m) matchInit
    if matched then some r else none

/-- The rule loop of `Process` computes the disjunction of the initial flag
with "some enabled rule's condition holds". -/
theorem process_foldl_or {R : Type} (rules : List (Rule R)) (r : R) (init : Bool) :
    rules.foldl (fun m rule => if rule.Enabled && rule.condition r then true else m) init
      = (init || rules.any (fun rule => rule.Enabled && rule.condition r)) := by
  induction rules generalizing init with
  | nil => simp
  | cons rule rest ih =>
    simp only [List.foldl_cons, List.any_cons]
    rw [ih]
    by_cases h : (rule.Enabled && rule.condition r) = true
    · simp [h]
    · simp [h, Bool.or_comm, Bool.or_assoc, Bool.or_left_comm]

/-! ### String helpers (modelling Go string primitives over character lists,
so that all definitions evaluate by kernel reduction) -/

/-- Double- and single-quote characters (`"` and `'`). -/
def quoteChars : List Char := [Char.ofNat 34, Char.ofNat 39]

/-- The list-separator character of `LISTSEP`. -/
def listSepChar : Char := Char.ofNat 44

/-- Modelled from the spec: the `engine.LISTSEP` constant (declared outside
src/); list-joined attribute values are comma-separated (`a,b,c`). -/
def LISTSEP : String := String.mk [listSepChar]

/-- The string `"["` (separator used by `MapStr` via `cut`). -/
def lBrackStr : String := String.mk [Char.ofNat 91]

/-- Splits a character list at every occurrence of `sep`
(Go `strings.Split` for a one-character separator). -/
def splitCharList (sep : Char) : List Char → List (List Char)
  | [] => [[]]
  | c :: cs =>
    let r := splitCharList sep cs
    if c = sep then [] :: r
    else
      match r with
      | h :: t => (c :: h) :: t
      | [] => [[c]]

/-- Go `strings.Split(s, sep)` for the one-character separators used by the
engine (`,` in `eval`). -/
def goSplit (s : String) (sep : Char) : List String :=
  (splitCharList sep s.toList).map String.mk

/-- Index of the first occurrence of `pat` in `l`
(Go `strings.Index`), `none` when absent. -/
def indexOfSub (pat : List Char) : List Char → Option Nat
  | [] => if pat.isEmpty then some 0 else none
  | l@(_ :: rest) =>
    if pat.isPrefixOf l then some 0
    else (indexOfSub pat rest).map (· + 1)

/-- cut has been introduced in go 1.18 (part_001 helper).  Returns
`(s[:i], s[i+1:], true)` at the first occurrence index `i` of `sep`
(the source advances by one byte, not by `len(sep)`; it is only called
with the one-byte separator `"["`), and `("", "", false)` when absent. -/
def cut (s sep : String) : String × String × Bool :=
  match indexOfSub sep.toList s.toList with
  | none => ("", "", false)
  | some i => (String.mk (s.toList.take i), String.mk (s.toList.drop (i + 1)), true)

/-- Modelled from the spec: `trimBoundingQuotes` (declared outside src/);
"strips surrounding quotes": one leading and one trailing double or single
quote are removed when present. -/
def trimBoundingQuotes (s : String) : String :=
  let cs := s.toList
  let cs1 :=
    match cs with
    | c :: rest => if c ∈ quoteChars then rest else cs
    | [] => []
  let cs2 :=
    match cs1.getLast? with
    | some c => if c ∈ quoteChars then cs1.dropLast else cs1
    | none => cs1
  String.mk cs2

/-- Suffix of `l` after the first occurrence of `pat`, `none` when absent. -/
def findSub (pat : List Char) : List Char → Option (List Char)
  | [] => if pat.isEmpty then some ([] : List Char) else none
  | l@(_ :: rest) =>
    if pat.isPrefixOf l then some (l.drop pat.length)
    else findSub pat rest

/-- Characters of `l` up to (excluding) the first character in `stops`. -/
def takeUntilAny (stops : List Char) : List Char → List Char
  | [] => []
  | c :: cs => if c ∈ stops then [] else c :: takeUntilAny stops cs

/-- Modelled from the spec: JSON sub-field extraction
(`gjson.Get(v, jsonpath).String()`, an external library): "extract the JSON
sub-field at `json.path` (returns empty if missing)".  Modelled for flat
objects: finds the quoted key followed by a colon and returns the value
(string contents for quoted values, the raw token up to a comma or closing
brace otherwise); empty when the key is missing. -/
def gjsonGet (v path : String) : String :=
  let q : Char := Char.ofNat 34
  match findSub (q :: path.toList ++ [q, Char.ofNat 58]) v.toList with
  | none => ""
  | some rest =>
    match rest with
    | [] => ""
    | c :: cs =>
      if c = q then String.mk (takeUntilAny [q] cs)
      else String.mk (takeUntilAny [listSepChar, Char.ofNat 125] (c :: cs))

/-- Go `strings.ToLower` for the ASCII severity texts compared by
`getPriority` (character-list based so that it evaluates by reduction). -/
def goToLower (s : String) : String := String.mk (s.toList.map Char.toLower)

/-- Go `strconv.FormatInt(v, 10)`. -/
def formatInt (v : Int) : String := toString v

/-- Go `strconv.FormatBool`. -/
def formatBool (b : Bool) : String := if b then "true" else "false"

/-- Model of Go `strconv.ParseInt(s, 10, 64)` returning `some v` exactly
when the parse succeeds: an optional sign, a non-empty run of decimal
digits and nothing else, with the value in the int64 range. -/
def goParseInt (s : String) : Option Int :=
  let cs := s.toList
  let signDigits : Int × List Char :=
    match cs with
    | c :: rest => if c = '-' then (-1, rest) else if c = '+' then (1, rest) else (1, cs)
    | [] => (1, [])
  let sign := signDigits.1
  let ds := signDigits.2
  if ds.isEmpty then none
  else if ds.all Char.isDigit then
    let v := sign * ds.foldl (fun a c => a * 10 + Int.ofNat (c.toNat - 48)) 0
    if -(2 ^ 63) ≤ v ∧ v ≤ 2 ^ 63 - 1 then some v else none
  else none

/-! ### Field mapper (falco fieldmapper source, part_001) -/

/-- The dynamically typed value returned by a `FieldMap`
(Go `interface{}`): the kinds produced by the registered accessors. -/
inductive Value : Type
  | int (v : Int)
  | i32 (v : Int)
  | str (v : String)
  | bool (b : Bool)
  | intArr (vs : List Int)
  | strArr (vs : List String)
  | null
deriving DecidableEq, Repr

/-- FieldEntry stores the metadata for each field in the mapper table; only
the accessor `Map` is consumed by the mapper methods embedded here (the
remaining metadata fields `FlatIndex`, `Type`, `Source`, `Section`,
`AuxAttr` do not affect them). -/
structure FieldEntry (R : Type) where
  Map : R → Value

/-- FieldMapper is an adapter for SysFlow attribute mappers; `Mappers` is
the lookup in the `map[string]*FieldEntry` table.  The methods are stated
over an arbitrary table and record type (the source fixes one global
`Mapper` built over sfgo records, an external collaborator). -/
structure FieldMapper (R : Type) where
  Mappers : String → Option (FieldEntry R)

/-- Map retrieves a field map based on a SysFlow attribute; an unregistered
attribute maps to the constant function returning the attribute name. -/
def FieldMapper.Map {R : Type} (m : FieldMapper R) (attr : String) : R → Value :=
  fun r =>
    match m.Mappers attr with
    | some mapper => mapper.Map r
    | none => Value.str attr

/-- MapInt retrieves a numerical field map based on a SysFlow attribute. -/
def FieldMapper.MapInt {R : Type} (m : FieldMapper R) (attr : String) : R → Int :=
  fun r =>
    match m.Map attr r with
    | Value.int v => v
    | _ =>
      match goParseInt attr with
      | some v => v
      | none => 0

/-- Modelled from the spec: the attribute-name constant `sf.proc.tty`
(the constants file is outside src/). -/
def SF_PROC_TTY : String := "sf.proc.tty"

/-- Modelled from the spec: the attribute-name constant `sf.proc.entry`. -/
def SF_PROC_ENTRY : String := "sf.proc.entry"

/-- MapStr retrieves a string field map based on a SysFlow attribute
(part_001 `MapStr`): `base[json.path]` attributes with a registered base
extract a JSON sub-field from string values; string values otherwise have
their bounding quotes trimmed; int values of `sf.proc.tty`/`sf.proc.entry`
format as booleans, other ints and int32s in decimal, bools as text;
anything else yields the empty string.  (The source slices
`jsonpath[:len(jsonpath)-1]`, which panics on an empty `jsonpath`; the
model's `dropLast` is total.) -/
def FieldMapper.MapStr {R : Type} (m : FieldMapper R) (attr : String) : R → String :=
  fun r =>
    let c0 := cut attr lBrackStr
    let baseattr0 := c0.1
    let jsonpath0 := c0.2.1
    let isPathExp0 := c0.2.2
    let isPathExp := isPathExp0 && (m.Mappers baseattr0).isSome
    let baseattr := if isPathExp0 then baseattr0 else attr
    let jsonpath := if isPathExp then String.mk jsonpath0.toList.dropLast else jsonpath0
    match m.Map baseattr r with
    | Value.str v =>
      if isPathExp && v != "" && jsonpath != "" then gjsonGet v jsonpath
      else trimBoundingQuotes v
    | Value.int v =>
      if baseattr = SF_PROC_TTY || baseattr = SF_PROC_ENTRY then formatBool (v != 0)
      else formatInt v
    | Value.i32 v => formatInt v
    | Value.bool b => formatBool b
    | _ => ""

/-! ### Operations vocabulary (core/policyengine/engine/falco/operations.go) -/

/-- The `ops.eq` string operator. -/
def opsEq (l r : String) : Bool := l == r

/-- Eval evaluates a boolean operator over two operand strings: each side is
split on the list separator and the operator applied to every pair
(operations.go `eval`; operands reach it as strings via `MapStr`). -/
def eval (l r : String) (op : String → String → Bool) : Bool :=
  let lattrs := goSplit l listSepChar
  let rattrs := goSplit r listSepChar
  lattrs.any (fun la => rattrs.any (fun ra => op la ra))

/-- Eq creates a criterion for an equality predicate (operations.go `Eq`);
both attribute operands are mapped through `MapStr`.  Parameterized by the
mapper (the source closes over the global `Mapper`); the wrapped boolean
predicate is modelled directly. -/
def FalcoEq {R : Type} (m : FieldMapper R) (lattr rattr : String) : R → Bool :=
  fun r => eval (m.MapStr lattr r) (m.MapStr rattr r) opsEq

/-- In creates a criterion for a list-inclusion predicate (operations.go
`In`); the attribute is mapped through `MapStr` and compared against each
raw list element. -/
def FalcoIn {R : Type} (m : FieldMapper R) (attr : String) (list : List String) : R → Bool :=
  fun r => list.any (fun v => eval (m.MapStr attr r) v opsEq)

/-- `s` contains no list separator. -/
def noListSep (s : String) : Bool := !(s.toList.contains listSepChar)

/-! ### Severity parsing (falco policy compiler, part_001 `getPriority`) -/

/-- Modelled from the spec: textual severity constant `debug`
(the `FPriority*` constants are declared outside src/; §4.4 lists the
severity texts). -/
def FPriorityDebug : String := "debug"

/-- Modelled from the spec: textual severity constant `info`. -/
def FPriorityInfo : String := "info"

/-- Modelled from the spec: textual severity constant `informational`. -/
def FPriorityInformational : String := "informational"

/-- Modelled from the spec: textual severity constant `notice`. -/
def FPriorityNotice : String := "notice"

/-- Modelled from the spec: textual severity constant `warning`. -/
def FPriorityWarning : String := "warning"

/-- Modelled from the spec: textual severity constant `error`. -/
def FPriorityError : String := "error"

/-- Modelled from the spec: textual severity constant `critical`. -/
def FPriorityCritical : String := "critical"

/-- Modelled from the spec: textual severity constant `emergency`. -/
def FPriorityEmergency : String := "emergency"

/-- getPriority maps a rule's textual severity to the three-level priority
enum (part_001 `getPriority`, the branch where a severity is present; the
switch is over the lower-cased text, and unmatched text warns and yields
`low`, as does an absent severity). -/
def getPriority (p : String) : Priority :=
  let lp := goToLower p
  if lp = Priority.low.toStr then Priority.low
  else if lp = Priority.medium.toStr then Priority.medium
  else if lp = Priority.high.toStr then Priority.high
  else if lp = FPriorityDebug then Priority.low
  else if lp = FPriorityInfo then Priority.low
  else if lp = FPriorityInformational then Priority.low
  else if lp = FPriorityNotice then Priority.low
  else if lp = FPriorityWarning then Priority.medium
  else if lp = FPriorityError then Priority.high
  else if lp = FPriorityCritical then Priority.high
  else if lp = FPriorityEmergency then Priority.high
  else Priority.low

/-! ### Concrete instances used in evaluations -/

/-- A field mapper with an empty table (every attribute unregistered). -/
def emptyMapper : FieldMapper Unit := ⟨fun _ => none⟩

/-- A field mapper registering only `sf.proc.exe`, whose value on the single
record is the JSON text `{}`. -/
def c9M : FieldMapper Unit :=
  ⟨fun a => if a = "sf.proc.exe" then some ⟨fun _ => Value.str "\x7b\x7d"⟩ else none⟩

/-- A criterion that always evaluates to `(true, nil)`. -/
def trueCrit : Criterion Unit := ⟨fun _ => (true, none)⟩

/-! ### C1 -/

/-- C1: for every record, `Process` returns nil whenever some enabled
filter's condition is true on it, regardless of rule matches; when no
enabled filter matches, enrich mode returns the record, and alert mode
returns the record iff at least one enabled rule's condition is true. -/
theorem C1_process_filters_and_modes {R : Type} (pi : PolicyInterpreter R) (r : R) :
    ((∃ f ∈ pi.filters, f.Enabled = true ∧ f.condition r = true) → pi.Process r = none)
    ∧ ((∀ f ∈ pi.filters, ¬(f.Enabled = true ∧ f.condition r = true)) →
        (pi.mode = Mode.enrich → pi.Process r = some r)
        ∧ (pi.mode = Mode.alert →
            (pi.Process r = some r
              ↔ ∃ rule ∈ pi.rules, rule.Enabled = true ∧ rule.condition r = true))) := by
  have hf : pi.EvalFilters r = true
      ↔ ∃ f ∈ pi.filters, f.Enabled = true ∧ f.condition r = true := by
    simp [PolicyInterpreter.EvalFilters, List.any_eq_true, Bool.and_eq_true]
  have hgen : pi.Process r
      = if pi.EvalFilters r then none
        else if decide (pi.mode = Mode.enrich)
            || pi.rules.any (fun rule => rule.Enabled && rule.condition r)
          then some r else none := by
    simp only [PolicyInterpreter.Process, process_foldl_or]
  constructor
  · intro hex
    rw [hgen, if_pos (hf.mpr hex)]
  · intro hno
    have hFalse : pi.EvalFilters r = false := by
      rw [← Bool.not_eq_true]
      intro h
      obtain ⟨f, hmem, hcond⟩ := hf.mp h
      exact hno f hmem hcond
    have hgen2 : pi.Process r
        = if decide (pi.mode = Mode.enrich)
            || pi.rules.any (fun rule => rule.Enabled && rule.condition r)
          then some r else none := by
      rw [hgen, hFalse]
      simp
    constructor
    · intro hmode
      rw [hgen2]
      simp [hmode]
    · intro hmode
      rw [hgen2]
      have hd : decide (pi.mode = Mode.enrich) = false := by simp [hmode]
      rw [hd, Bool.false_or]
      constructor
      · intro hsome
        by_cases hany : (pi.rules.any fun rule => rule.Enabled && rule.condition r) = true
        · simpa [List.any_eq_true, Bool.and_eq_true] using hany
        · rw [Bool.not_eq_true] at hany
          rw [hany] at hsome
          simp at hsome
      · intro hexr
        have hany : (pi.rules.any fun rule => rule.Enabled && rule.condition r) = true := by
          simpa [List.any_eq_true, Bool.and_eq_true] using hexr
        rw [hany]
        simp

/-- C1 witness: concrete instantiations of `C1_process_filters_and_modes`. -/
theorem C1_process_filters_and_modes_witness :
    (({ mode := Mode.alert,
        rules := [{ Name := "r", Desc := "", condition := fun _ => true, Actions := [],
                    Tags := [], Priority := Priority.low, Prefilter := [], Enabled := true }],
        filters := [{ Name := "f", condition := fun _ => true, Enabled := true }] }
          : PolicyInterpreter Unit).Process () = none)
    ∧ (({ mode := Mode.enrich, rules := [], filters := [] }
          : PolicyInterpreter Unit).Process () = some ()) := by
  constructor
  · exact (C1_process_filters_and_modes _ ()).1
      ⟨{ Name := "f", condition := fun _ => true, Enabled := true }, by simp, rfl, rfl⟩
  · exact ((C1_process_filters_and_modes _ ()).2 (by simp)).1 rfl

/-! ### C2 -/

/-- A record context as in the spec's data model (tags, matched rules,
alert flag), used to observe what `Process` does to a record's context. -/
structure RecContext where
  tags : List String
  rules : List String
  alert : Bool
deriving DecidableEq, Repr

/-- A record carrying only a mutable context. -/
structure CtxRecord where
  ctx : RecContext
deriving DecidableEq, Repr

/-- An enabled rule with metadata whose condition is true on every record. -/
def c2Rule : Rule CtxRecord :=
  { Name := "r1", Desc := "", condition := fun _ => true, Actions := ["a1"],
    Tags := ["t1"], Priority := Priority.medium, Prefilter := [], Enabled := true }

/-- An alert-mode interpreter holding only `c2Rule`. -/
def c2PI : PolicyInterpreter CtxRecord :=
  { mode := Mode.alert, rules := [c2Rule], filters := [] }

/-- A record with an empty context (no tags, no rules, alert off). -/
def c2Rec : CtxRecord := ⟨⟨[], [], false⟩⟩

/-- C2: evaluation of the code at the failing input.  In alert mode, with an
enabled matching rule carrying metadata, `Process` forwards the record with
its context untouched: no rule metadata is appended and the alert flag stays
false (the context mutations are commented out in the source), contradicting
the claimed enrichment. -/
theorem C2_process_leaves_context_unchanged :
    c2Rule.Enabled = true
    ∧ c2Rule.condition c2Rec = true
    ∧ c2PI.mode = Mode.alert
    ∧ c2PI.Process c2Rec = some c2Rec
    ∧ c2Rec.ctx.rules = []
    ∧ c2Rec.ctx.tags = []
    ∧ c2Rec.ctx.alert = false := by decide

/-! ### C3 -/

/-- C3: evaluation of the code at the failing input.  For two predicates
that both evaluate to `(true, nil)`, `And` returns `(false, nil)` instead of
the conjunction `(true, nil)`: the source tests `err != nil` where its
documented behaviour ("computes the conjunction") requires `err == nil`,
and it never evaluates its argument. -/
theorem C3_and_returns_false_on_errorfree_true :
    trueCrit.Eval () = (true, none)
    ∧ (trueCrit.And trueCrit).Eval () = (false, none) := by decide

/-! ### C4 -/

/-- C4: evaluation of the code at the failing input.  For a predicate
evaluating to `(true, nil)` without error, `Not (Not p)` evaluates to
`(false, nil)`, not to `p`'s result: the source's `Not` returns the
negation only when the inner evaluation errs and `(false, nil)` otherwise,
so double negation is constantly false on error-free records. -/
theorem C4_double_negation_not_identity :
    trueCrit.Eval () = (true, none)
    ∧ ((trueCrit.Not).Not).Eval () = (false, none) := by decide

/-! ### C5 -/

/-- C5 counterexample: with every attribute unregistered, the attribute
`foo` maps to `foo` (no list separator), yet `In(foo, ["foo" quoted])` is
false while `Eq(foo, "foo" quoted)` is true: `Eq` maps the right operand
through `MapStr` (which trims the bounding quotes) while `In` compares the
raw list element. -/
theorem C5_in_vs_eq_counterexample :
    noListSep (emptyMapper.MapStr "foo" ()) = true
    ∧ FalcoIn emptyMapper "foo" ["\x22foo\x22"] () = false
    ∧ FalcoEq emptyMapper "foo" "\x22foo\x22" () = true := by decide

/-- C5 (amended): `In(a, [x])` evaluates like `Eq(a, x)` on records where
`a`'s mapped value contains no list separator, provided the single list
element `x` is mapped to itself by `MapStr` (as for an unquoted,
unregistered literal); `Eq` maps both operands while `In` uses the raw
element, so the equivalence needs `MapStr(x)(r) = x`. -/
theorem C5_in_singleton_is_eq {R : Type} (m : FieldMapper R) (a x : String) (r : R)
    (_hsep : noListSep (m.MapStr a r) = true) (hx : m.MapStr x r = x) :
    FalcoIn m a [x] r = FalcoEq m a x r := by
  simp [FalcoIn, FalcoEq, hx]

/-- C5 witness: `C5_in_singleton_is_eq` at a concrete mapper, attributes and
record. -/
theorem C5_in_singleton_is_eq_witness :
    noListSep (emptyMapper.MapStr "foo" ()) = true
    ∧ emptyMapper.MapStr "bar" () = "bar"
    ∧ FalcoIn emptyMapper "foo" ["bar"] () = FalcoEq emptyMapper "foo" "bar" () :=
  ⟨by decide, by decide, C5_in_singleton_is_eq emptyMapper "foo" "bar" () (by decide) (by decide)⟩

/-! ### C6 -/

/-- `MapInt` reduces to the parse-or-zero fallback when the accessor does
not yield an int64. -/
theorem mapint_of_not_int {R : Type} (m : FieldMapper R) (attr : String) (r : R)
    (h : ∀ v : Int, m.Map attr r ≠ Value.int v) :
    m.MapInt attr r
      = (match goParseInt attr with | some v => v | none => 0) := by
  unfold FieldMapper.MapInt
  cases hm : m.Map attr r
  case int v => exact absurd hm (h v)
  all_goals rfl

/-- C6: `MapInt(attr)(r)` returns the mapped value when the underlying
accessor yields an int64; otherwise, when `attr` itself parses as a decimal
integer literal the literal value is returned, and otherwise zero. -/
theorem C6_mapint_semantics {R : Type} (m : FieldMapper R) (attr : String) (r : R) :
    (∀ v : Int, m.Map attr r = Value.int v → m.MapInt attr r = v)
    ∧ ((∀ v : Int, m.Map attr r ≠ Value.int v) →
        (∀ n : Int, goParseInt attr = some n → m.MapInt attr r = n)
        ∧ (goParseInt attr = none → m.MapInt attr r = 0)) := by
  constructor
  · intro v hv
    simp [FieldMapper.MapInt, hv]
  · intro hnv
    have hred := mapint_of_not_int m attr r hnv
    constructor
    · intro n hn
      rw [hred, hn]
    · intro hn
      rw [hred, hn]

/-- A field mapper registering only `sf.proc.pid`, with int value 7. -/
def c6M : FieldMapper Unit :=
  ⟨fun a => if a = "sf.proc.pid" then some ⟨fun _ => Value.int 7⟩ else none⟩

/-- C6 witness: `C6_mapint_semantics` at concrete mappers and attributes:
a registered int attribute, a numeric literal, and an unparseable name. -/
theorem C6_mapint_semantics_witness :
    c6M.MapInt "sf.proc.pid" () = 7
    ∧ c6M.MapInt "42" () = 42
    ∧ c6M.MapInt "zzz" () = 0 := by
  refine ⟨?_, ?_, ?_⟩
  · exact (C6_mapint_semantics c6M "sf.proc.pid" ()).1 7 (by decide)
  · exact ((C6_mapint_semantics c6M "42" ()).2
      (by intro v h; simp [FieldMapper.Map, c6M] at h)).1 42 (by decide)
  · exact ((C6_mapint_semantics c6M "zzz" ()).2
      (by intro v h; simp [FieldMapper.Map, c6M] at h)).2 (by decide)

/-! ### C7 -/

/-- The lower-cased severity texts recognized by `getPriority`. -/
def severityNames : List String :=
  ["low", "medium", "high", "debug", "info", "informational", "notice",
   "warning", "error", "critical", "emergency"]

/-- C7: the severity-to-priority mapping sends debug, info, informational
and notice to low; warning to medium; error, critical and emergency to
high; the canonical names low, medium, high map to themselves; and any
severity whose lower-cased text is none of these yields low. -/
theorem C7_severity_mapping :
    getPriority FPriorityDebug = Priority.low
    ∧ getPriority FPriorityInfo = Priority.low
    ∧ getPriority FPriorityInformational = Priority.low
    ∧ getPriority FPriorityNotice = Priority.low
    ∧ getPriority FPriorityWarning = Priority.medium
    ∧ getPriority FPriorityError = Priority.high
    ∧ getPriority FPriorityCritical = Priority.high
    ∧ getPriority FPriorityEmergency = Priority.high
    ∧ getPriority "low" = Priority.low
    ∧ getPriority "medium" = Priority.medium
    ∧ getPriority "high" = Priority.high
    ∧ (∀ s : String, goToLower s ∉ severityNames → getPriority s = Priority.low) := by
  refine ⟨by decide, by decide, by decide, by decide, by decide, by decide, by decide,
    by decide, by decide, by decide, by decide, ?_⟩
  intro s hs
  simp only [severityNames, List.mem_cons, List.not_mem_nil, or_false, not_or] at hs
  obtain ⟨h1, h2, h3, h4, h5, h6, h7, h8, h9, h10, h11⟩ := hs
  simp [getPriority, Priority.toStr, FPriorityDebug, FPriorityInfo, FPriorityInformational,
    FPriorityNotice, FPriorityWarning, FPriorityError, FPriorityCritical, FPriorityEmergency,
    h1, h2, h3, h4, h5, h6, h7, h8, h9, h10, h11]

/-- C7 witness: `C7_severity_mapping`'s default clause at a concrete
unrecognized severity. -/
theorem C7_severity_mapping_witness :
    goToLower "Unknown" ∉ severityNames ∧ getPriority "Unknown" = Priority.low :=
  ⟨by decide, (C7_severity_mapping).2.2.2.2.2.2.2.2.2.2.2 "Unknown" (by decide)⟩

/-! ### C9 -/

/-- `indexOfSub` for a one-character pattern misses exactly when the
character does not occur. -/
theorem indexOfSub_single_none {c : Char} {l : List Char} (h : l.contains c = false) :
    indexOfSub [c] l = none := by
  induction l with
  | nil => simp [indexOfSub]
  | cons x xs ih =>
    simp only [List.contains_cons, Bool.or_eq_false_iff, beq_eq_false_iff_ne] at h
    have hne : ¬([c].isPrefixOf (x :: xs)) := by
      simp [List.isPrefixOf]
      exact fun hcx => absurd hcx h.1
    simp only [indexOfSub, if_neg hne]
    rw [ih (by simpa using h.2)]
    rfl

/-- C9 counterexample: `sf.proc.exe[x]` is not registered in the table (only
`sf.proc.exe` is), and `Map` returns the attribute name itself, yet `MapStr`
does not return the attribute with bounding quotes trimmed: the registered
base is consulted and JSON sub-field extraction does apply (the base name
is known even though the full attribute is not), yielding the extraction
result (empty here, the key being missing from the value). -/
theorem C9_mapstr_counterexample :
    (c9M.Mappers "sf.proc.exe[x]").isSome = false
    ∧ c9M.Map "sf.proc.exe[x]" () = Value.str "sf.proc.exe[x]"
    ∧ c9M.MapStr "sf.proc.exe[x]" () = ""
    ∧ c9M.MapStr "sf.proc.exe[x]" () ≠ trimBoundingQuotes "sf.proc.exe[x]" := by decide

/-- C9 (amended): for every attribute name not registered in the table,
`Map(attr)(r)` returns the string `attr` itself; and when `attr` contains
no `[` (so it is not an attribute-with-JSON-path form), `MapStr(attr)(r)`
returns `attr` with its bounding quotes trimmed — which is what makes
literal operands compare correctly.  (When `attr` has the form
`base[path]`, `MapStr` consults `base` instead, and JSON extraction can
still apply when `base` is registered.) -/
theorem C9_unregistered_attr_maps_to_itself {R : Type} (m : FieldMapper R) (attr : String)
    (r : R) (h : (m.Mappers attr).isSome = false) :
    m.Map attr r = Value.str attr
    ∧ (attr.toList.contains (Char.ofNat 91) = false →
        m.MapStr attr r = trimBoundingQuotes attr) := by
  have hm : m.Mappers attr = none := by
    cases hm : m.Mappers attr
    · rfl
    · rw [hm] at h; simp at h
  have hmap : m.Map attr r = Value.str attr := by
    simp [FieldMapper.Map, hm]
  refine ⟨hmap, ?_⟩
  intro hbr
  have hcut : cut attr lBrackStr = ("", "", false) := by
    unfold cut
    have : indexOfSub lBrackStr.toList attr.toList = none := by
      have : lBrackStr.toList = [Char.ofNat 91] := by decide
      rw [this]
      exact indexOfSub_single_none hbr
    rw [this]
  simp [FieldMapper.MapStr, hcut, hmap]

/-- C9 witness: `C9_unregistered_attr_maps_to_itself` at a concrete mapper,
unregistered quoted attribute and record. -/
theorem C9_unregistered_attr_maps_to_itself_witness :
    (c9M.Mappers "\x22foo\x22").isSome = false
    ∧ ("\x22foo\x22".toList.contains (Char.ofNat 91)) = false
    ∧ c9M.Map "\x22foo\x22" () = Value.str "\x22foo\x22"
    ∧ c9M.MapStr "\x22foo\x22" () = trimBoundingQuotes "\x22foo\x22" :=
  ⟨by decide, by decide,
    (C9_unregistered_attr_maps_to_itself c9M "\x22foo\x22" () (by decide)).1,
    (C9_unregistered_attr_maps_to_itself c9M "\x22foo\x22" () (by decide)).2 (by decide)⟩

/-! ### Log-stream decoding (driver/log/tailer/logstream/decode.go) -/

/-- The Unicode replacement character (`utf8.RuneError`). -/
def uFFFD : Char := Char.ofNat 0xFFFD

/-- Continuation-byte test (`0x80..0xBF`). -/
def contB (b : UInt8) : Bool := 0x80 ≤ b && b ≤ 0xBF

/-- Accepted range of the second byte of a multi-byte UTF-8 sequence as a
function of the first byte (Go `utf8` accept ranges, excluding overlong
encodings and surrogates). -/
def accept1 (b0 b1 : UInt8) : Bool :=
  if b0 = 0xE0 then 0xA0 ≤ b1 && b1 ≤ 0xBF
  else if b0 = 0xED then 0x80 ≤ b1 && b1 ≤ 0x9F
  else if b0 = 0xF0 then 0x90 ≤ b1 && b1 ≤ 0xBF
  else if b0 = 0xF4 then 0x80 ≤ b1 && b1 ≤ 0x8F
  else 0x80 ≤ b1 && b1 ≤ 0xBF

/-- Model of Go `utf8.DecodeRune`: decodes the first rune of the byte list,
returning the rune and its width; invalid or truncated sequences yield
`(RuneError, 1)` and the empty list `(RuneError, 0)`. -/
def decodeRune : List UInt8 → Char × Nat
  | [] => (uFFFD, 0)
  | b0 :: rest =>
    if b0 < 0x80 then (Char.ofNat b0.toNat, 1)
    else if b0 < 0xC2 || 0xF4 < b0 then (uFFFD, 1)
    else if b0 ≤ 0xDF then
      match rest with
      | b1 :: _ =>
        if accept1 b0 b1 then
          (Char.ofNat (((b0.toNat &&& 0x1F) <<< 6) ||| (b1.toNat &&& 0x3F)), 2)
        else (uFFFD, 1)
      | [] => (uFFFD, 1)
    else if b0 ≤ 0xEF then
      match rest with
      | b1 :: b2 :: _ =>
        if accept1 b0 b1 && contB b2 then
          (Char.ofNat (((b0.toNat &&& 0x0F) <<< 12) ||| ((b1.toNat &&& 0x3F) <<< 6)
            ||| (b2.toNat &&& 0x3F)), 3)
        else (uFFFD, 1)
      | _ => (uFFFD, 1)
    else
      match rest with
      | b1 :: b2 :: b3 :: _ =>
        if accept1 b0 b1 && contB b2 && contB b3 then
          (Char.ofNat (((b0.toNat &&& 0x07) <<< 18) ||| ((b1.toNat &&& 0x3F) <<< 12)
            ||| ((b2.toNat &&& 0x3F) <<< 6) ||| (b3.toNat &&& 0x3F)), 4)
        else (uFFFD, 1)
      | _ => (uFFFD, 1)

/-- On a non-empty byte list, `decodeRune` consumes at least one and at most
`length` bytes. -/
theorem decodeRune_width (b0 : UInt8) (rest : List UInt8) :
    1 ≤ (decodeRune (b0 :: rest)).2 ∧ (decodeRune (b0 :: rest)).2 ≤ (b0 :: rest).length := by
  rcases rest with _ | ⟨b1, rest1⟩
  · simp only [decodeRune]
    split_ifs <;> simp
  · rcases rest1 with _ | ⟨b2, rest2⟩
    · simp only [decodeRune]
      split_ifs <;> simp
    · rcases rest2 with _ | ⟨b3, rest3⟩
      · simp only [decodeRune]
        split_ifs <;> simp
      · simp only [decodeRune]
        split_ifs <;> simp

/-- The loop of `decodeAndSend` (decode.go): starting at byte offset `i`
with `rem` the remaining bytes, while bytes remain and `i < n`, decode one
rune; a carriage return is eaten, a newline sends the partial buffer as one
line (`sendLine`) and resets it, any other rune is appended to the partial
buffer.  Returns the final partial buffer and the lines sent, in order. -/
def decodeLoop (n i : Nat) (rem : List UInt8) (partialBuf : String) (acc : List String) :
    String × List String :=
  match rem with
  | [] => (partialBuf, acc.reverse)
  | b0 :: rest =>
    if i < n then
      let dw := decodeRune (b0 :: rest)
      if dw.1 = Char.ofNat 13 then
        decodeLoop n (i + dw.2) ((b0 :: rest).drop dw.2) partialBuf acc
      else if dw.1 = Char.ofNat 10 then
        decodeLoop n (i + dw.2) ((b0 :: rest).drop dw.2) "" (partialBuf :: acc)
      else
        decodeLoop n (i + dw.2) ((b0 :: rest).drop dw.2) (partialBuf.push dw.1) acc
    else (partialBuf, acc.reverse)
termination_by rem.length
decreasing_by
  all_goals
    have h := decodeRune_width b0 rest
    simp only [List.length_drop, List.length_cons] at h ⊢
    omega

/-- decodeAndSend transforms the byte array `b` into unicode in the partial
buffer, sending to the lines channel as each newline is decoded
(decode.go `decodeAndSend`); `n` is the byte count passed by the caller and
bounds the loop together with `len(b)`. -/
def decodeAndSend (n : Nat) (b : List UInt8) (partialBuf : String) : String × List String :=
  decodeLoop n 0 b partialBuf []

/-- The rune sequence decoded from a byte list, rune by rune. -/
def decodeRunes : List UInt8 → List Char
  | [] => []
  | b0 :: rest =>
    let dw := decodeRune (b0 :: rest)
    dw.1 :: decodeRunes ((b0 :: rest).drop dw.2)
termination_by l => l.length
decreasing_by
  have h := decodeRune_width b0 rest
  simp only [List.length_drop, List.length_cons] at h ⊢
  omega

/-- The claim-side decoder: process the decoded runes one at a time — each
carriage return is discarded, each newline emits exactly one line carrying
the accumulated partial text (without the newline) and resets the partial
buffer, and every other rune is appended to the partial buffer. -/
def processRunes : List Char → String → List String → String × List String
  | [], partialBuf, acc => (partialBuf, acc.reverse)
  | c :: cs, partialBuf, acc =>
    if c = Char.ofNat 13 then processRunes cs partialBuf acc
    else if c = Char.ofNat 10 then processRunes cs "" (partialBuf :: acc)
    else processRunes cs (partialBuf.push c) acc

/-- `decodeLoop` agrees with the claim-side rune processor whenever the
byte budget `n` covers all remaining bytes. -/
theorem decodeLoop_eq_processRunes :
    ∀ (k : Nat) (rem : List UInt8), rem.length ≤ k →
      ∀ (n i : Nat), rem.length + i ≤ n → ∀ (p : String) (acc : List String),
        decodeLoop n i rem p acc = processRunes (decodeRunes rem) p acc := by
  intro k
  induction k with
  | zero =>
    intro rem hk n i hin p acc
    have : rem = [] := List.length_eq_zero.mp (Nat.le_zero.mp hk)
    subst this
    simp [decodeLoop, decodeRunes, processRunes]
  | succ k ih =>
    intro rem hk n i hin p acc
    rcases rem with _ | ⟨b0, rest⟩
    · simp [decodeLoop, decodeRunes, processRunes]
    · have hw := decodeRune_width b0 rest
      have hi : i < n := by
        simp only [List.length_cons] at hin
        omega
      have hdroplen : ((b0 :: rest).drop (decodeRune (b0 :: rest)).2).length ≤ k := by
        simp only [List.length_drop, List.length_cons]
        simp only [List.length_cons] at hk hw
        omega
      have hdropn : ((b0 :: rest).drop (decodeRune (b0 :: rest)).2).length
          + (i + (decodeRune (b0 :: rest)).2) ≤ n := by
        simp only [List.length_drop, List.length_cons]
        simp only [List.length_cons] at hin hw
        omega
      rw [decodeLoop.eq_def, decodeRunes.eq_def]
      simp only [if_pos hi]
      by_cases hcr : (decodeRune (b0 :: rest)).1 = Char.ofNat 13
      · simp only [hcr, if_pos rfl]
        rw [processRunes.eq_def]
        simp only [if_pos rfl]
        exact ih _ hdroplen n _ hdropn p acc
      · by_cases hlf : (decodeRune (b0 :: rest)).1 = Char.ofNat 10
        · simp only [if_neg hcr, hlf, if_pos rfl]
          rw [processRunes.eq_def]
          simp only [if_neg (hlf ▸ hcr), if_pos rfl]
          exact ih _ hdroplen n _ hdropn "" (p :: acc)
        · simp only [if_neg hcr, if_neg hlf]
          rw [processRunes.eq_def]
          simp only [if_neg hcr, if_neg hlf]
          exact ih _ hdroplen n _ hdropn (p.push (decodeRune (b0 :: rest)).1) acc

/-- C8: for a byte buffer `b` of length `n` and any pending partial buffer,
the decode step processes exactly the `n` bytes runewise: carriage returns
are discarded, each newline emits exactly one line carrying the accumulated
partial text (without the newline) and resets the partial buffer, and every
other rune is appended to the partial buffer; no bytes beyond the `n`
passed are processed. -/
theorem C8_decode_runewise (n : Nat) (b : List UInt8) (partialBuf : String)
    (h : n = b.length) :
    decodeAndSend n b partialBuf = processRunes (decodeRunes b) partialBuf [] := by
  unfold decodeAndSend
  exact decodeLoop_eq_processRunes b.length b le_rfl n 0 (by omega) partialBuf []

/-- C8 witness: `C8_decode_runewise` on the concrete buffer `"ab\r\nc"`. -/
theorem C8_decode_runewise_witness :
    5 = ([97, 98, 13, 10, 99] : List UInt8).length
    ∧ decodeAndSend 5 [97, 98, 13, 10, 99] "x"
        = processRunes (decodeRunes [97, 98, 13, 10, 99]) "x" [] :=
  ⟨by decide, C8_decode_runewise 5 [97, 98, 13, 10, 99] "x" (by decide)⟩

/-! ### File stream event loop (fileStream.stream, part_004) -/

/-- The observable per-iteration outcomes of the environment in the
`fileStream.stream` goroutine loop: a read returning bytes; EOF with the
pathname gone (`os.IsNotExist`); EOF with a different file at the pathname
(rotation, `!os.SameFile`); EOF with the file shorter than the seek offset
(truncation); EOF with a pending stop signal; and EOF followed by a waker
wake-up. -/
inductive StreamEvent : Type
  | readBytes (b : List UInt8)
  | eofRemoved
  | eofRotated
  | eofTruncated
  | eofStop
  | eofWake
deriving DecidableEq, Repr

/-- The state of the stream machinery for one pathname: the `completed`
flag is a field of the shared `fileStream` object read by `IsComplete` —
rotation spawns `fs.stream` on the *same* `fileStream`, so the successor
goroutine shares (and can later set) this flag.  `partialBuf` is the local
`partial` buffer of the currently active goroutine (each `stream`
invocation allocates a fresh one); `emitted` is the trace of lines sent to
the output channel; `spawns` records the `streamFromStart` argument of each
`fs.stream` spawn performed; `exited` means the goroutine chain has
returned with no successor. -/
structure StreamState : Type where
  partialBuf : String
  completed : Bool
  emitted : List String
  spawns : List Bool
  exited : Bool
deriving DecidableEq, Repr

/-- `sendLine` on the pending buffer when non-empty
(`if partial.Len() > 0 { sendLine(...) }`). -/
def flushPartial (st : StreamState) : StreamState :=
  if st.partialBuf ≠ "" then
    { st with emitted := st.emitted ++ [st.partialBuf], partialBuf := "" }
  else st

/-- One iteration of the `fileStream.stream` loop under the given
environment outcome, faithful to the branch structure of the source: bytes
read are decoded and sent (`decodeAndSend`); a vanished pathname flushes the
partial buffer, sets `completed` and returns; rotation spawns `fs.stream`
on the same `fileStream` with `streamFromStart = true` and the old goroutine
returns with no flush and without touching `completed` — the successor
goroutine shares `completed` and continues with a fresh (empty) partial
buffer, so the old pending text is discarded; truncation flushes and
continues (seek to 0); a stop signal at EOF flushes, sets `completed` and
returns; a wake continues.  Once the chain has exited, the state is
final. -/
def streamStep (st : StreamState) (e : StreamEvent) : StreamState :=
  if st.exited then st
  else
    match e with
    | .readBytes b =>
      let pr := decodeAndSend b.length b st.partialBuf
      { st with partialBuf := pr.1, emitted := st.emitted ++ pr.2 }
    | .eofRemoved =>
      let st1 := flushPartial st
      { st1 with completed := true, exited := true }
    | .eofRotated =>
      { st with partialBuf := "", spawns := st.spawns ++ [true] }
    | .eofTruncated => flushPartial st
    | .eofStop =>
      let st1 := flushPartial st
      { st1 with completed := true, exited := true }
    | .eofWake => st

/-- A whole run of the stream loop over a list of environment outcomes. -/
def streamRun (evs : List StreamEvent) (st : StreamState) : StreamState :=
  evs.foldl streamStep st

/-- IsComplete reports the shared `completed` flag (part_004
`IsComplete`). -/
def IsComplete (st : StreamState) : Bool := st.completed

/-- Events on which the stream machinery neither returns for good nor sets
`completed`: reads, truncation, wakes, and rotation (which hands over to a
successor goroutine on the same `fileStream`). -/
def nonExiting : StreamEvent → Bool
  | .readBytes _ => true
  | .eofTruncated => true
  | .eofWake => true
  | .eofRotated => true
  | _ => false

/-- An exited chain's state is final. -/
theorem streamRun_exited (evs : List StreamEvent) (st : StreamState)
    (h : st.exited = true) : streamRun evs st = st := by
  induction evs with
  | nil => rfl
  | cons e evs ih =>
    have : streamStep st e = st := by simp [streamStep, h]
    simp [streamRun, List.foldl_cons, this]
    simpa [streamRun] using ih

/-- Non-exiting events preserve the `exited` and `completed` flags. -/
theorem streamStep_nonExiting (st : StreamState) (e : StreamEvent)
    (h : nonExiting e = true) :
    (streamStep st e).exited = st.exited ∧ (streamStep st e).completed = st.completed := by
  by_cases hx : st.exited = true
  · simp [streamStep, hx]
  · rw [Bool.not_eq_true] at hx
    cases e <;> simp_all [streamStep, nonExiting, flushPartial]
    all_goals split_ifs <;> simp_all

/-- A run of non-exiting events preserves the `exited` and `completed`
flags. -/
theorem streamRun_nonExiting (evs : List StreamEvent) (st : StreamState)
    (h : ∀ e ∈ evs, nonExiting e = true) :
    (streamRun evs st).exited = st.exited ∧ (streamRun evs st).completed = st.completed := by
  induction evs generalizing st with
  | nil => exact ⟨rfl, rfl⟩
  | cons e evs ih =>
    have he := streamStep_nonExiting st e (h e (by simp))
    have hr := ih (streamStep st e) (fun e' he' => h e' (by simp [he']))
    simp only [streamRun, List.foldl_cons] at hr ⊢
    exact ⟨hr.1.trans he.1, hr.2.trans he.2⟩

/-- C10 counterexample: a stream holding an unterminated final line that
detects rotation sets no flag and emits nothing — but `IsComplete` does not
stay false forever: the spawned goroutine runs `fs.stream` on the same
`fileStream` and shares its `completed` flag, so a stop signal arriving
after the rotation makes `IsComplete` true, refuting the claim that for a
rotated-away stream `IsComplete()` never becomes true. -/
theorem C10_isComplete_after_rotation_counterexample :
    IsComplete (streamRun [StreamEvent.eofRotated]
      (⟨"line", false, [], [], false⟩ : StreamState)) = false
    ∧ (streamRun [StreamEvent.eofRotated]
        (⟨"line", false, [], [], false⟩ : StreamState)).emitted = []
    ∧ IsComplete (streamRun [StreamEvent.eofRotated, StreamEvent.eofStop]
        (⟨"line", false, [], [], false⟩ : StreamState)) = true := by decide

/-- C10 (amended): when a still-running stream (no prior completing event)
detects rotation at EOF, it spawns a new stream on the same `fileStream`
reading from the start, and the old goroutine returns without setting the
completed flag and without flushing its pending partial buffer: the
rotation step records the from-start spawn, leaves the emitted lines and
the shared `completed` flag unchanged, and discards the pending
unterminated line (the successor continues with an empty buffer, so the old
file's unterminated final line is never emitted); `IsComplete` is still
false immediately after the rotation, and the remaining events are
processed by the successor from exactly that state — sharing `completed`,
which later stop or removal events may set. -/
theorem C10_rotation_discards_partial_keeps_running
    (evs1 evs2 : List StreamEvent) (st0 : StreamState)
    (hc : st0.completed = false) (hx : st0.exited = false)
    (h1 : ∀ e ∈ evs1, nonExiting e = true) :
    streamStep (streamRun evs1 st0) StreamEvent.eofRotated
      = { streamRun evs1 st0 with
          partialBuf := "", spawns := (streamRun evs1 st0).spawns ++ [true] }
    ∧ IsComplete (streamStep (streamRun evs1 st0) StreamEvent.eofRotated) = false
    ∧ streamRun (evs1 ++ StreamEvent.eofRotated :: evs2) st0
        = streamRun evs2 (streamStep (streamRun evs1 st0) StreamEvent.eofRotated) := by
  have hpre := streamRun_nonExiting evs1 st0 h1
  have hx1 : (streamRun evs1 st0).exited = false := hpre.1.trans hx
  have hc1 : (streamRun evs1 st0).completed = false := hpre.2.trans hc
  refine ⟨?_, ?_, ?_⟩
  · simp [streamStep, hx1]
  · simp [IsComplete, streamStep, hx1, hc1]
  · simp [streamRun, List.foldl_append, List.foldl_cons]

/-- C10 witness: `C10_rotation_discards_partial_keeps_running` on a
concrete run — a read and a wake, then the rotation, after which
`IsComplete` is still false. -/
theorem C10_rotation_discards_partial_keeps_running_witness :
    (⟨"", false, [], [], false⟩ : StreamState).completed = false
    ∧ (⟨"", false, [], [], false⟩ : StreamState).exited = false
    ∧ (∀ e ∈ [StreamEvent.readBytes [104, 105], StreamEvent.eofWake], nonExiting e = true)
    ∧ IsComplete (streamStep
        (streamRun [StreamEvent.readBytes [104, 105], StreamEvent.eofWake]
          (⟨"", false, [], [], false⟩ : StreamState))
        StreamEvent.eofRotated) = false :=
  ⟨by decide, by decide, by decide,
    (C10_rotation_discards_partial_keeps_running
      [StreamEvent.readBytes [104, 105], StreamEvent.eofWake] []
      (⟨"", false, [], [], false⟩ : StreamState)
      (by decide) (by decide) (by decide)).2.1⟩

end SfProc
